import Mathlib

/-!
Shallow embedding of the user store and WebSocket hub of the Go repository
(src/server/server.go, first document, and src/unnamed/part_002, package
websocket). Machine time instants are modelled as natural numbers; each
handler receives the instant produced by its call to time.Now as an explicit
argument. Maps from int keys to users are modelled as association lists with
update-or-append assignment, matching Go map semantics observationally.
-/

/-- User record, from the User struct in src/server/server.go (lines 26-35). -/
structure User where
  id : Nat
  name : String
  email : String
  age : Int
  country : String
  active : Bool
  createdAt : Nat
  updatedAt : Nat
deriving Repr, DecidableEq

/-- Store state, from the Store struct (users map and nextID counter). -/
structure Store where
  users : List (Nat × User)
  nextID : Nat
deriving Repr, DecidableEq

/-- Lookup in the users map, modelling store.users[id]. -/
def mapLookup (l : List (Nat × User)) (k : Nat) : Option User :=
  match l with
  | [] => none
  | p :: rest => if p.1 = k then some p.2 else mapLookup rest k

/-- Map assignment store.users[k] = v: replace the binding when the key is
present, append it otherwise. -/
def mapInsert (l : List (Nat × User)) (k : Nat) (v : User) : List (Nat × User) :=
  match l with
  | [] => [(k, v)]
  | p :: rest => if p.1 = k then (k, v) :: rest else p :: mapInsert rest k v

/-- Map deletion delete(store.users, k). -/
def mapErase (l : List (Nat × User)) (k : Nat) : List (Nat × User) :=
  l.filter (fun p => p.1 ≠ k)

/-- Case folding of one character, modelling the per-character action of
strings.ToLower on the ASCII range. -/
def lowerChar (c : Char) : Char :=
  if 'A' ≤ c ∧ c ≤ 'Z' then Char.ofNat (c.toNat + 32) else c

/-- Case folding of a string, modelling strings.ToLower with folding on the
ASCII range. -/
def strToLower (s : String) : String :=
  String.mk (s.data.map lowerChar)

/-- Lower-case ASCII letter test, the character class a-z of the email regex. -/
def isLowerAlpha (c : Char) : Bool :=
  'a' ≤ c && c ≤ 'z'

/-- Decimal digit test, the character class 0-9 of the email regex. -/
def isDigitCh (c : Char) : Bool :=
  '0' ≤ c && c ≤ '9'

/-- Character class of the local part of the email regex in createUser
(line 1493): lower letters, digits, dot, underscore, percent, plus, hyphen. -/
def isLocalChar (c : Char) : Bool :=
  isLowerAlpha c || isDigitCh c || c == '.' || c == '_' || c == '%' || c == '+' || c == '-'

/-- Character class of the domain part of the email regex: lower letters,
digits, dot, hyphen. -/
def isDomainChar (c : Char) : Bool :=
  isLowerAlpha c || isDigitCh c || c == '.' || c == '-'

/-- Match of the domain half of the anchored regex: one or more domain
characters, a dot, then at least two lower letters running to the end.
Because the final letter block contains no dot, a match exists exactly when
the suffix after the last dot is two or more letters and the part before
that dot is a nonempty run of domain characters. -/
def domainOk (d : List Char) : Bool :=
  let r := d.reverse
  let tld := r.takeWhile isLowerAlpha
  let rest := r.drop tld.length
  decide (2 ≤ tld.length) &&
    (match rest with
     | [] => false
     | c :: before => c == '.' && !before.isEmpty && before.all isDomainChar)

/-- Match of the full anchored email regex of createUser and updateUser
against an already lower-cased string: a nonempty run of local characters,
one at sign, then a matching domain. The at sign occurs in neither character
class, so the string must contain exactly one. -/
def emailRegexMatch (s : String) : Bool :=
  match s.toList.splitOn '@' with
  | [loc, dom] => !loc.isEmpty && loc.all isLocalChar && domainOk dom
  | _ => false

/-- Email validation as performed by createUser line 1493-1494 and updateUser
line 1563-1564: the input is lower-cased, then matched against the regex.
Case folding is modelled on ASCII letters. -/
def validEmail (email : String) : Bool :=
  emailRegexMatch (strToLower email)

/-- Error taxonomy of the handlers: 400 validation responses and 404
not-found responses. -/
inductive ApiError where
  | validation (msg : String)
  | notFound (msg : String)
deriving Repr, DecidableEq

/-- Handler createUser (src/server/server.go lines 1475-1529), after JSON
decoding: empty-field check, email regex check, age range check, then record
construction with the next identifier, insertion, and counter increment. Both
timestamps receive the same instant now (the single time.Now call at line
1504). -/
def createUser (s : Store) (now : Nat) (name email : String) (age : Int)
    (country : String) : Except ApiError (User × Store) :=
  if name = "" ∨ email = "" then
    .error (.validation "Name and email are required")
  else if validEmail email = false then
    .error (.validation "Invalid email format")
  else if age < 0 ∨ age > 150 then
    .error (.validation "Age must be between 0 and 150")
  else
    let user : User :=
      { id := s.nextID, name := name, email := email, age := age,
        country := country, active := true, createdAt := now, updatedAt := now }
    .ok (user, { users := mapInsert s.users s.nextID user, nextID := s.nextID + 1 })

/-- Handler getUser (lines 1455-1473), after identifier parsing. -/
def getUser (s : Store) (id : Nat) : Except ApiError User :=
  match mapLookup s.users id with
  | some u => .ok u
  | none => .error (.notFound "User not found")

/-- Tail of updateUser after the age field (lines 1579-1585): optional
country assignment, refresh of the updated timestamp, write-back. -/
def updateFinish (s : Store) (id : Nat) (u : User) (country : String)
    (now : Nat) : Except ApiError (User × Store) :=
  let u4 := if country ≠ "" then { u with country := country } else u
  let u5 := { u4 with updatedAt := now }
  .ok (u5, { s with users := mapInsert s.users id u5 })

/-- Age step of updateUser (lines 1571-1578): when an age is supplied it is
range-checked and assigned, otherwise the record is unchanged. -/
def updateUserAge (s : Store) (id : Nat) (u : User) (age : Option Int)
    (country : String) (now : Nat) : Except ApiError (User × Store) :=
  match age with
  | none => updateFinish s id u country now
  | some a =>
    if a < 0 ∨ a > 150 then .error (.validation "Age must be between 0 and 150")
    else updateFinish s id { u with age := a } country now

/-- Handler updateUser (lines 1531-1588), after identifier and JSON parsing.
Absent fields arrive as the empty string, absent age as none, mirroring the
omitempty sentinels. Field checks and assignments occur in source order with
early returns; the map write-back happens only on the success path. -/
def updateUser (s : Store) (now : Nat) (id : Nat) (name email : String)
    (age : Option Int) (country : String) : Except ApiError (User × Store) :=
  match mapLookup s.users id with
  | none => .error (.notFound "User not found")
  | some u0 =>
    let u1 := if name ≠ "" then { u0 with name := name } else u0
    if email ≠ "" then
      if validEmail email = false then .error (.validation "Invalid email format")
      else updateUserAge s id { u1 with email := email } age country now
    else updateUserAge s id u1 age country now

/-- Handler deleteUser (lines 1590-1610), after identifier parsing. -/
def deleteUser (s : Store) (id : Nat) : Except ApiError Store :=
  match mapLookup s.users id with
  | none => .error (.notFound "User not found")
  | some _ => .ok { s with users := mapErase s.users id }

/-- Common body of activateUser and deactivateUser (lines 1774-1820): look
the record up, set the active flag, refresh the updated timestamp, write
back. -/
def setActive (s : Store) (now : Nat) (id : Nat) (b : Bool) :
    Except ApiError (User × Store) :=
  match mapLookup s.users id with
  | none => .error (.notFound "User not found")
  | some u0 =>
    let u := { u0 with active := b, updatedAt := now }
    .ok (u, { s with users := mapInsert s.users id u })

/-- Handler activateUser (lines 1774-1796). -/
def activateUser (s : Store) (now : Nat) (id : Nat) :
    Except ApiError (User × Store) :=
  setActive s now id true

/-- Handler deactivateUser (lines 1798-1820). -/
def deactivateUser (s : Store) (now : Nat) (id : Nat) :
    Except ApiError (User × Store) :=
  setActive s now id false

/-- Pagination of handler getUsers (lines 1425-1453) on the collected user
list, with the empty sort parameter so the collected list is paginated as
gathered. Returns the page slice, the total and the page count. -/
def getUsers (s : Store) (page perPage : Nat) : List User × Nat × Nat :=
  let allUsers := s.users.map Prod.snd
  let total := allUsers.length
  let totalPages := (total + perPage - 1) / perPage
  let start := (page - 1) * perPage
  let stop := start + perPage
  if total ≤ start then
    ([], total, totalPages)
  else
    let stop2 := if total < stop then total else stop
    ((allUsers.drop start).take (stop2 - start), total, totalPages)

/-- Go strconv.ParseBool: the twelve accepted literals, anything else is a
parse error, modelled as none. -/
def parseBool (s : String) : Option Bool :=
  if s = "1" ∨ s = "t" ∨ s = "T" ∨ s = "TRUE" ∨ s = "true" ∨ s = "True" then
    some true
  else if s = "0" ∨ s = "f" ∨ s = "F" ∨ s = "FALSE" ∨ s = "false" ∨ s = "False" then
    some false
  else none

/-- Substring containment, modelling strings.Contains. -/
def strContains (s sub : String) : Bool :=
  (List.range (s.toList.length + 1)).any (fun i => sub.toList.isPrefixOf (s.toList.drop i))

/-- Per-record filter of handler searchUsers (lines 1662-1682): substring
query against lower-cased name and email when the query is nonempty, exact
country match when nonempty, and active-flag match when the active parameter
is nonempty, where the parameter is fed to ParseBool and its error is
discarded, leaving false. The three filters compose by conjunction. -/
def searchMatch (query country activeStr : String) (u : User) : Bool :=
  (query == "" || strContains (strToLower u.name) query
    || strContains (strToLower u.email) query) &&
  (country == "" || u.country == country) &&
  (activeStr == "" || u.active == (parseBool activeStr).getD false)

/-- Handler searchUsers (lines 1653-1688): the q parameter is lower-cased on
entry, then every stored record passing all filters is collected. -/
def searchUsers (s : Store) (qRaw country activeStr : String) : List User :=
  (s.users.map Prod.snd).filter (searchMatch (strToLower qRaw) country activeStr)

/-- Seed data of initTestData (lines 1969-2024), applied at startup to the
initially empty package-level store: five users stamped with one instant,
and the counter set to 6. -/
def initTestData (now : Nat) : Store :=
  { users :=
      [ (1, { id := 1, name := "Иван Петров", email := "ivan@example.com",
              age := 30, country := "Russia", active := true,
              createdAt := now, updatedAt := now }),
        (2, { id := 2, name := "Мария Сидорова", email := "maria@example.com",
              age := 25, country := "Russia", active := true,
              createdAt := now, updatedAt := now }),
        (3, { id := 3, name := "Петр Иванов", email := "petr@example.com",
              age := 35, country := "Ukraine", active := false,
              createdAt := now, updatedAt := now }),
        (4, { id := 4, name := "John Smith", email := "john@example.com",
              age := 28, country := "USA", active := true,
              createdAt := now, updatedAt := now }),
        (5, { id := 5, name := "Anna Schmidt", email := "anna@example.com",
              age := 32, country := "Germany", active := true,
              createdAt := now, updatedAt := now }) ],
    nextID := 6 }

/-- Store state of a freshly started server: the package-level store begins
with an empty map and counter 1, and StartServer (line 145) runs
initTestData before serving. -/
def startServerStore (now : Nat) : Store :=
  initTestData now

/-- Mutating store operations exposed by the handlers: create, update,
activate and deactivate (the two SetActive handlers), delete. -/
inductive StoreOp where
  | create (name email : String) (age : Int) (country : String)
  | update (id : Nat) (name email : String) (age : Option Int) (country : String)
  | setActiveOp (id : Nat) (b : Bool)
  | delete (id : Nat)
deriving Repr, DecidableEq

/-- Post-state and error outcome of one handler call: on an early error
return the handler has not reached its map write-back, so the store is the
pre-state. -/
def applyOp (s : Store) (now : Nat) (op : StoreOp) : Store × Option ApiError :=
  match op with
  | .create name email age country =>
    match createUser s now name email age country with
    | .ok (_, s2) => (s2, none)
    | .error e => (s, some e)
  | .update id name email age country =>
    match updateUser s now id name email age country with
    | .ok (_, s2) => (s2, none)
    | .error e => (s, some e)
  | .setActiveOp id b =>
    match setActive s now id b with
    | .ok (_, s2) => (s2, none)
    | .error e => (s, some e)
  | .delete id =>
    match deleteUser s id with
    | .ok s2 => (s2, none)
    | .error e => (s, some e)

/-- Store invariant of the data model: association keys are distinct, every
binding keys the record by its own identifier, every record keeps its
creation instant at or before its update instant, and every identifier in
the table is below the counter, so the next assigned identifier exceeds
them all. -/
def StoreInv (s : Store) : Prop :=
  (s.users.map Prod.fst).Nodup ∧
  ∀ p ∈ s.users, p.1 = p.2.id ∧ p.2.createdAt ≤ p.2.updatedAt ∧ p.1 < s.nextID

/-!
Hub embedding, from src/unnamed/part_002 (package websocket). The central
loop in Hub.Run services exactly one event per iteration; it is embedded as
a step function over an explicit event type. A buffered channel is embedded
as its queue contents plus a capacity, and closing the channel as a flag.
-/

/-- Payload of a hub message, a closed rendering of the dynamic data field:
the welcome payload carries the greeting text and client identifier, the
heartbeat payload the client count and server time, the shutdown payload its
text, the user-created payload the record, and raw stands for client-echoed
payloads. -/
inductive MsgData where
  | welcome (text : String) (id : String)
  | heartbeat (activeClients : Nat) (serverTime : Nat)
  | shutdownInfo (text : String)
  | userCreated (u : User)
  | raw (s : String)
deriving Repr, DecidableEq

/-- Message envelope, from the Message struct of the websocket package. -/
structure Message where
  type : String
  data : MsgData
  timestamp : Nat
deriving Repr, DecidableEq

/-- Client, from the Client struct: identifier, outbound queue contents with
its fixed capacity, and closed-state flags for the queue and the transport. -/
structure Client where
  id : String
  send : List Message
  sendCap : Nat
  sendClosed : Bool
  connClosed : Bool
deriving Repr, DecidableEq

/-- Client as constructed by handleWebSocket (src/server/server.go line
195-199): empty outbound queue of capacity 256, everything open. -/
def newClient (id : String) : Client :=
  { id := id, send := [], sendCap := 256, sendClosed := false, connClosed := false }

/-- Hub state: the registered client set, as a list keyed by client
identifier. -/
structure Hub where
  clients : List Client
deriving Repr, DecidableEq

/-- Nonblocking enqueue, the select with a default branch: succeeds exactly
when the buffered queue has room. -/
def trySend (c : Client) (m : Message) : Option Client :=
  if c.send.length < c.sendCap then some { c with send := c.send ++ [m] } else none

/-- Per-client body of the broadcast case of Hub.Run (lines 79-86): enqueue
when there is room, otherwise close the queue; a closed client is then
removed from the set. -/
def deliver (m : Message) (c : Client) : Client :=
  match trySend c m with
  | some c2 => c2
  | none => { c with sendClosed := true }

/-- Client states produced by one broadcast pass over the registered set. -/
def Hub.broadcastResults (h : Hub) (m : Message) : List Client :=
  h.clients.map (deliver m)

/-- Broadcast case of Hub.Run: every registered client is attempted once;
clients whose queue was full have been closed and are deleted from the set. -/
def Hub.broadcastStep (h : Hub) (m : Message) : Hub :=
  { clients := (h.broadcastResults m).filter (fun c => !c.sendClosed) }

/-- Hub.SendToClient (lines 106-115): nonblocking send to one client; on a
full queue the client is closed and deleted from the set. -/
def Hub.SendToClient (h : Hub) (target : String) (m : Message) : Hub :=
  { clients := h.clients.filterMap (fun c =>
      if c.id = target then trySend c m else some c) }

/-- Greeting text of the welcome message sent at registration. -/
def welcomeText : String := "Добро пожаловать в Go Showcase WebSocket!"

/-- Welcome message constructed in the register case of Hub.Run
(lines 58-65). -/
def welcomeMessage (id : String) (now : Nat) : Message :=
  { type := "welcome", data := .welcome welcomeText id, timestamp := now }

/-- Heartbeat message constructed in the ticker case of Hub.Run
(lines 89-97). -/
def heartbeatMessage (activeClients : Nat) (now : Nat) : Message :=
  { type := "heartbeat", data := .heartbeat activeClients now, timestamp := now }

/-- Shutdown message constructed in Hub.Shutdown (lines 131-137). -/
def shutdownMessage (now : Nat) : Message :=
  { type := "shutdown", data := .shutdownInfo "Server is shutting down gracefully",
    timestamp := now }

/-- Events serviced by the central loop of Hub.Run, one per iteration:
a registration, an unregistration, a broadcast, or a heartbeat tick. -/
inductive HubEvent where
  | register (c : Client) (now : Nat)
  | unregister (id : String)
  | broadcast (m : Message)
  | tick (now : Nat)
deriving Repr, DecidableEq

/-- Register case of Hub.Run (lines 51-65): the client is added to the set,
then the welcome message is sent to it through SendToClient before any
further event is serviced. -/
def Hub.registerStep (h : Hub) (c : Client) (now : Nat) : Hub :=
  let h1 : Hub := { clients := h.clients ++ [c] }
  h1.SendToClient c.id (welcomeMessage c.id now)

/-- Unregister case of Hub.Run (lines 67-75): the client is removed from the
set and its queue closed; removal is modelled on the identifier key. -/
def Hub.unregisterStep (h : Hub) (id : String) : Hub :=
  { clients := h.clients.filter (fun c => c.id ≠ id) }

/-- Ticker case of Hub.Run: a heartbeat message carrying the current client
count is broadcast. In the source the message passes through the buffered
broadcast channel and is serviced on a later iteration; the step composes
the two iterations. -/
def Hub.tickStep (h : Hub) (now : Nat) : Hub :=
  h.broadcastStep (heartbeatMessage h.clients.length now)

/-- One iteration of the central loop of Hub.Run (lines 45-100), servicing a
single event. -/
def Hub.Run (h : Hub) (e : HubEvent) : Hub :=
  match e with
  | .register c now => h.registerStep c now
  | .unregister id => h.unregisterStep id
  | .broadcast m => h.broadcastStep m
  | .tick now => h.tickStep now

/-- Hub.Shutdown (lines 127-147): for every registered client the shutdown
message is pushed with a blocking send, then the queue and the transport are
closed; finally the set is emptied. With no concurrent drain a blocking send
completes only when the queue has room, so the step is defined exactly when
every registered queue has room, and returns the emptied hub together with
the final client states. -/
def Hub.Shutdown (h : Hub) (now : Nat) : Option (Hub × List Client) :=
  if h.clients.all (fun c => c.send.length < c.sendCap) then
    some ({ clients := [] },
      h.clients.map (fun c =>
        { c with send := c.send ++ [shutdownMessage now],
                 sendClosed := true, connClosed := true }))
  else none

/-- Concrete broadcast payload used in the evaluation fixtures below. -/
def sampleMessage : Message :=
  { type := "user_created", data := .raw "x", timestamp := 5 }

/-- Fixture client whose queue is at capacity. -/
def fullClient : Client :=
  { id := "full", send := [sampleMessage], sendCap := 1,
    sendClosed := false, connClosed := false }

/-- Fixture client with room in its queue. -/
def roomyClient : Client :=
  { id := "roomy", send := [], sendCap := 2,
    sendClosed := false, connClosed := false }

/-- Fixture hub with one saturated and one responsive client. -/
def sampleHub : Hub :=
  { clients := [fullClient, roomyClient] }

/-- Fixture hub whose only client has room. -/
def roomyHub : Hub :=
  { clients := [roomyClient] }

/-!
Map lemmas for the association-list rendering of the Go map.
-/

theorem mapLookup_mapInsert_self (l : List (Nat × User)) (k : Nat) (v : User) :
    mapLookup (mapInsert l k v) k = some v := by
  induction l with
  | nil => simp [mapInsert, mapLookup]
  | cons p rest ih =>
    by_cases h : p.1 = k
    · simp [mapInsert, mapLookup, h]
    · simp [mapInsert, mapLookup, h, ih]

theorem mapLookup_mapInsert_ne (l : List (Nat × User)) (k k2 : Nat) (v : User)
    (h : k2 ≠ k) : mapLookup (mapInsert l k v) k2 = mapLookup l k2 := by
  induction l with
  | nil => simp [mapInsert, mapLookup, Ne.symm h]
  | cons p rest ih =>
    by_cases hp : p.1 = k
    · subst hp
      simp [mapInsert, mapLookup, Ne.symm h]
    · simp only [mapInsert, if_neg hp, mapLookup]
      by_cases hk : p.1 = k2
      · simp [hk]
      · simp [hk, ih]

theorem mem_mapInsert (l : List (Nat × User)) (k : Nat) (v : User)
    (p : Nat × User) (hp : p ∈ mapInsert l k v) : p = (k, v) ∨ p ∈ l := by
  induction l with
  | nil => simpa [mapInsert] using hp
  | cons q rest ih =>
    by_cases hq : q.1 = k
    · rcases (by simpa [mapInsert, hq] using hp : p = (k, v) ∨ p ∈ rest) with h | h
      · exact Or.inl h
      · exact Or.inr (List.mem_cons_of_mem q h)
    · rcases (by simpa [mapInsert, hq] using hp : p = q ∨ p ∈ mapInsert rest k v) with h | h
      · exact Or.inr (h ▸ List.mem_cons_self q rest)
      · rcases ih h with h2 | h2
        · exact Or.inl h2
        · exact Or.inr (List.mem_cons_of_mem q h2)

theorem key_mem_mapInsert (l : List (Nat × User)) (k : Nat) (v : User) (a : Nat) :
    a ∈ (mapInsert l k v).map Prod.fst ↔ a = k ∨ a ∈ l.map Prod.fst := by
  induction l with
  | nil => simp [mapInsert]
  | cons q rest ih =>
    by_cases hq : q.1 = k
    · subst hq
      simp [mapInsert]
    · simp only [mapInsert, if_neg hq, List.map_cons, List.mem_cons, ih]
      tauto

theorem nodup_keys_mapInsert (l : List (Nat × User)) (k : Nat) (v : User)
    (h : (l.map Prod.fst).Nodup) : ((mapInsert l k v).map Prod.fst).Nodup := by
  induction l with
  | nil => simp [mapInsert]
  | cons q rest ih =>
    simp only [List.map_cons, List.nodup_cons] at h
    by_cases hq : q.1 = k
    · subst hq
      simpa [mapInsert, List.nodup_cons] using h
    · simp only [mapInsert, if_neg hq, List.map_cons, List.nodup_cons]
      refine ⟨?_, ih h.2⟩
      rw [key_mem_mapInsert]
      rintro (hk | hmem)
      · exact hq hk
      · exact h.1 hmem

theorem mapLookup_some_mem (l : List (Nat × User)) (k : Nat) (u : User)
    (h : mapLookup l k = some u) : (k, u) ∈ l := by
  induction l with
  | nil => simp [mapLookup] at h
  | cons p rest ih =>
    obtain ⟨a, b⟩ := p
    by_cases hp : a = k
    · have h2 : b = u := by simpa [mapLookup, hp] using h
      subst hp
      subst h2
      exact List.mem_cons_self _ _
    · exact List.mem_cons_of_mem _ (ih (by simpa [mapLookup, hp] using h))

/-!
Inversion lemmas for the handlers.
-/

theorem createUser_ok_inv (s : Store) (now : Nat) (name email : String)
    (age : Int) (country : String) (u : User) (s2 : Store)
    (h : createUser s now name email age country = Except.ok (u, s2)) :
    u = { id := s.nextID, name := name, email := email, age := age,
          country := country, active := true, createdAt := now, updatedAt := now } ∧
    s2 = { users := mapInsert s.users s.nextID u, nextID := s.nextID + 1 } := by
  unfold createUser at h
  split_ifs at h
  obtain ⟨h1, h2⟩ : u = _ ∧ s2 = _ := by
    have := h
    simp only [Except.ok.injEq, Prod.mk.injEq] at this
    exact ⟨this.1.symm, this.2.symm⟩
  subst h1
  exact ⟨rfl, by rw [h2]⟩

/-- C1: createUser rejects an empty name or email, a malformed email, or an
age outside 0 to 150 with a validation error; otherwise it assigns the
current next identifier and increments the counter, sets active, stamps both
timestamps with the same instant, inserts the record, and returns it, so a
lookup right after the create returns the same record and a second
successful create yields a strictly larger identifier. -/
theorem createUser_spec (s : Store) (now : Nat) (name email : String)
    (age : Int) (country : String) :
    ((name = "" ∨ email = "" ∨ validEmail email = false ∨ age < 0 ∨ age > 150) →
      ∃ msg, createUser s now name email age country =
        Except.error (ApiError.validation msg)) ∧
    (name ≠ "" → email ≠ "" → validEmail email = true → 0 ≤ age → age ≤ 150 →
      ∃ u s2, createUser s now name email age country = Except.ok (u, s2) ∧
        u.id = s.nextID ∧ s2.nextID = s.nextID + 1 ∧
        u.active = true ∧ u.createdAt = now ∧ u.updatedAt = now ∧
        u.name = name ∧ u.email = email ∧ u.age = age ∧ u.country = country ∧
        getUser s2 u.id = Except.ok u ∧
        (∀ now2 name2 email2 age2 country2 u2 s3,
          createUser s2 now2 name2 email2 age2 country2 = Except.ok (u2, s3) →
          u.id < u2.id)) := by
  constructor
  · intro hbad
    unfold createUser
    split_ifs with h1 h2 h3
    · exact ⟨_, rfl⟩
    · exact ⟨_, rfl⟩
    · exact ⟨_, rfl⟩
    · exfalso
      rcases hbad with h | h | h | h | h
      · exact h1 (Or.inl h)
      · exact h1 (Or.inr h)
      · exact h2 h
      · exact h3 (Or.inl h)
      · exact h3 (Or.inr h)
  · intro h1 h2 h3 h4 h5
    have hne : ¬ (name = "" ∨ email = "") := by
      rintro (h | h)
      · exact h1 h
      · exact h2 h
    have hem : ¬ (validEmail email = false) := by simp [h3]
    have hage : ¬ (age < 0 ∨ age > 150) := by omega
    have heq : createUser s now name email age country =
        Except.ok
          ({ id := s.nextID, name := name, email := email, age := age,
             country := country, active := true, createdAt := now, updatedAt := now },
           { users := mapInsert s.users s.nextID
               { id := s.nextID, name := name, email := email, age := age,
                 country := country, active := true, createdAt := now, updatedAt := now },
             nextID := s.nextID + 1 }) := by
      unfold createUser
      rw [if_neg hne, if_neg hem, if_neg hage]
    refine ⟨_, _, heq, rfl, rfl, rfl, rfl, rfl, rfl, rfl, rfl, rfl, ?_, ?_⟩
    · show getUser _ s.nextID = _
      unfold getUser
      rw [mapLookup_mapInsert_self]
    · intro now2 name2 email2 age2 country2 u2 s3 hcr
      have h := (createUser_ok_inv _ _ _ _ _ _ _ _ hcr).1
      have : u2.id = s.nextID + 1 := by rw [h]
      simp only [this]
      omega

/-- Evaluation of createUser_spec on the freshly started store with the
record Alice. -/
theorem createUser_spec_witness :
    ∃ u s2, createUser (startServerStore 0) 1 "Alice" "alice@example.com" 28 "" =
        Except.ok (u, s2) ∧
      u.id = 6 ∧ s2.nextID = 7 ∧ u.active = true ∧ u.createdAt = 1 ∧
      u.updatedAt = 1 ∧ getUser s2 u.id = Except.ok u := by
  obtain ⟨u, s2, heq, hid, hnext, hact, hcr, hup, -, -, -, -, hget, -⟩ :=
    (createUser_spec (startServerStore 0) 1 "Alice" "alice@example.com" 28 "").2
      (by decide) (by decide) (by decide) (by decide) (by decide)
  exact ⟨u, s2, heq, by rw [hid]; rfl, by rw [hnext]; rfl, hact, hcr, hup, hget⟩

/-- C9: a handler call that returns a validation error leaves the store
exactly as it was: every early error return happens before the map
write-back, so no record is inserted, modified or restamped. -/
theorem validation_error_no_mutation (s : Store) (now : Nat) (op : StoreOp)
    (msg : String)
    (herr : (applyOp s now op).2 = some (ApiError.validation msg)) :
    (applyOp s now op).1 = s := by
  cases op with
  | create name email age country =>
    simp only [applyOp] at herr ⊢
    cases h : createUser s now name email age country with
    | ok p =>
      obtain ⟨u, s2⟩ := p
      simp [h] at herr
    | error e => simp [h]
  | update id name email age country =>
    simp only [applyOp] at herr ⊢
    cases h : updateUser s now id name email age country with
    | ok p =>
      obtain ⟨u, s2⟩ := p
      simp [h] at herr
    | error e => simp [h]
  | setActiveOp id b =>
    simp only [applyOp] at herr ⊢
    cases h : setActive s now id b with
    | ok p =>
      obtain ⟨u, s2⟩ := p
      simp [h] at herr
    | error e => simp [h]
  | delete id =>
    simp only [applyOp] at herr ⊢
    cases h : deleteUser s id with
    | ok s2 => simp [h] at herr
    | error e => simp [h]

/-- Evaluation of validation_error_no_mutation on a create with an empty
name against the freshly started store. -/
theorem validation_error_no_mutation_witness :
    (applyOp (startServerStore 0) 1
      (StoreOp.create "" "alice@example.com" 28 "")).1 = startServerStore 0 :=
  validation_error_no_mutation (startServerStore 0) 1
    (StoreOp.create "" "alice@example.com" 28 "")
    "Name and email are required" (by decide)

theorem updateFinish_ok_inv (s : Store) (id : Nat) (u : User) (country : String)
    (now : Nat) (u2 : User) (s2 : Store)
    (h : updateFinish s id u country now = Except.ok (u2, s2)) :
    u2 = { (if country ≠ "" then { u with country := country } else u) with
             updatedAt := now } ∧
    s2 = { s with users := mapInsert s.users id u2 } := by
  unfold updateFinish at h
  simp only [Except.ok.injEq, Prod.mk.injEq] at h
  obtain ⟨h1, h2⟩ := h
  subst h1
  exact ⟨rfl, h2.symm⟩

theorem updateUserAge_ok_inv (s : Store) (id : Nat) (u : User) (age : Option Int)
    (country : String) (now : Nat) (u2 : User) (s2 : Store)
    (h : updateUserAge s id u age country now = Except.ok (u2, s2)) :
    u2.createdAt = u.createdAt ∧ u2.updatedAt = now ∧ u2.name = u.name ∧
    u2.email = u.email ∧ u2.id = u.id ∧ u2.active = u.active ∧
    (age = none → u2.age = u.age) ∧ (∀ a, age = some a → u2.age = a) ∧
    (country = "" → u2.country = u.country) ∧
    (country ≠ "" → u2.country = country) ∧
    s2 = { s with users := mapInsert s.users id u2 } := by
  cases age with
  | none =>
    obtain ⟨h1, h2⟩ := updateFinish_ok_inv _ _ _ _ _ _ _ h
    by_cases hc : country = ""
    · subst h1
      simp [hc, h2]
    · subst h1
      simp [hc, h2]
  | some a =>
    simp only [updateUserAge] at h
    by_cases hr : a < 0 ∨ a > 150
    · simp [hr] at h
    · rw [if_neg hr] at h
      obtain ⟨h1, h2⟩ := updateFinish_ok_inv _ _ _ _ _ _ _ h
      by_cases hc : country = ""
      · subst h1
        simp [hc, h2]
      · subst h1
        simp [hc, h2]

/-- C4: on a successful partial update every unsupplied field keeps its
pre-update value, every supplied field takes the supplied value, the
creation timestamp is never changed, the update timestamp becomes the call
instant and so moves strictly forward whenever the clock does, the record is
stored back under its identifier, and no other record or the counter is
touched. -/
theorem updateUser_frame (s : Store) (now : Nat) (id : Nat)
    (name email : String) (age : Option Int) (country : String)
    (u0 u2 : User) (s2 : Store)
    (h0 : mapLookup s.users id = some u0)
    (hok : updateUser s now id name email age country = Except.ok (u2, s2)) :
    u2.createdAt = u0.createdAt ∧
    u2.updatedAt = now ∧
    (u0.updatedAt < now → u0.updatedAt < u2.updatedAt) ∧
    (name = "" → u2.name = u0.name) ∧ (name ≠ "" → u2.name = name) ∧
    (email = "" → u2.email = u0.email) ∧ (email ≠ "" → u2.email = email) ∧
    (age = none → u2.age = u0.age) ∧ (∀ a, age = some a → u2.age = a) ∧
    (country = "" → u2.country = u0.country) ∧
    (country ≠ "" → u2.country = country) ∧
    u2.id = u0.id ∧ u2.active = u0.active ∧
    mapLookup s2.users id = some u2 ∧
    (∀ k, k ≠ id → mapLookup s2.users k = mapLookup s.users k) ∧
    s2.nextID = s.nextID := by
  simp only [updateUser, h0] at hok
  have main : ∀ X : User, X.createdAt = u0.createdAt → X.updatedAt = u0.updatedAt →
      X.id = u0.id → X.active = u0.active → X.age = u0.age →
      X.country = u0.country →
      updateUserAge s id X age country now = Except.ok (u2, s2) →
      u2.createdAt = u0.createdAt ∧ u2.updatedAt = now ∧
      (u0.updatedAt < now → u0.updatedAt < u2.updatedAt) ∧
      u2.name = X.name ∧ u2.email = X.email ∧
      (age = none → u2.age = u0.age) ∧ (∀ a, age = some a → u2.age = a) ∧
      (country = "" → u2.country = u0.country) ∧
      (country ≠ "" → u2.country = country) ∧
      u2.id = u0.id ∧ u2.active = u0.active ∧
      mapLookup s2.users id = some u2 ∧
      (∀ k, k ≠ id → mapLookup s2.users k = mapLookup s.users k) ∧
      s2.nextID = s.nextID := by
    intro X hXc hXu hXi hXa hXage hXcty hX
    obtain ⟨hc, hu, hnm, hem, hid2, hac, hageN, hageS, hcN, hcS, hs2⟩ :=
      updateUserAge_ok_inv _ _ _ _ _ _ _ _ hX
    subst hs2
    refine ⟨hc.trans hXc, hu, ?_, hnm, hem, ?_, hageS,
      fun h => (hcN h).trans hXcty, hcS,
      hid2.trans hXi, hac.trans hXa, mapLookup_mapInsert_self _ _ _,
      fun k hk => mapLookup_mapInsert_ne _ _ _ _ hk, rfl⟩
    · intro h
      omega
    · intro h
      rw [hageN h, hXage]
  by_cases he : email = ""
  · simp only [he, ne_eq, not_true_eq_false, if_false, ite_false] at hok
    obtain ⟨hc, hu, hlt, hnm, hem, hageN, hageS, hcN, hcS, hid2, hac, hl,
        hother, hnext⟩ :=
      main _ (by split <;> rfl) (by split <;> rfl) (by split <;> rfl)
        (by split <;> rfl) (by split <;> rfl) (by split <;> rfl) hok
    refine ⟨hc, hu, hlt, ?_, ?_, ?_, ?_, hageN, hageS, hcN, hcS, hid2, hac,
      hl, hother, hnext⟩
    · intro hn
      rw [hnm]
      simp [hn]
    · intro hn
      rw [hnm]
      simp [hn]
    · intro _
      rw [hem]
      split <;> rfl
    · intro hcon
      exact absurd he hcon
  · have hveT : validEmail email = true := by
      cases hvb : validEmail email
      · rw [if_pos (by simp [he]), hvb] at hok
        simp at hok
      · rfl
    rw [if_pos (by simp [he] : ¬ email = "" )] at hok
    rw [hveT] at hok
    simp only [Bool.true_eq_false, if_false, ite_false] at hok
    obtain ⟨hc, hu, hlt, hnm, hem, hageN, hageS, hcN, hcS, hid2, hac, hl,
        hother, hnext⟩ :=
      main _ (by split <;> rfl) (by split <;> rfl) (by split <;> rfl)
        (by split <;> rfl) (by split <;> rfl) (by split <;> rfl) hok
    refine ⟨hc, hu, hlt, ?_, ?_, ?_, ?_, hageN, hageS, hcN, hcS, hid2, hac,
      hl, hother, hnext⟩
    · intro hn
      rw [hnm]
      simp [hn]
    · intro hn
      rw [hnm]
      simp [hn]
    · intro hcon
      exact absurd hcon he
    · intro _
      rw [hem]

/-- Evaluation of updateUser_frame: a partial update of seeded user 4 that
supplies only a country. -/
theorem updateUser_frame_witness :
    ∃ u2 s2, updateUser (startServerStore 0) 3 4 "" "" none "Canada" =
        Except.ok (u2, s2) ∧
      u2.name = "John Smith" ∧ u2.email = "john@example.com" ∧
      u2.country = "Canada" ∧ u2.createdAt = 0 ∧ u2.updatedAt = 3 ∧
      mapLookup s2.users 4 = some u2 := by
  obtain ⟨u2, s2, hok⟩ :
      ∃ u2 s2, updateUser (startServerStore 0) 3 4 "" "" none "Canada" =
        Except.ok (u2, s2) := ⟨_, _, rfl⟩
  have h0 : mapLookup (startServerStore 0).users 4 =
      some { id := 4, name := "John Smith", email := "john@example.com",
             age := 28, country := "USA", active := true,
             createdAt := 0, updatedAt := 0 } := by decide
  obtain ⟨hc, hu, -, hnm, -, hem, -, -, -, -, hcS, -, -, hl, -, -⟩ :=
    updateUser_frame (startServerStore 0) 3 4 "" "" none "Canada" _ u2 s2 h0 hok
  exact ⟨u2, s2, hok, by rw [hnm rfl], by rw [hem rfl], hcS (by decide),
    by rw [hc], hu, hl⟩

/-- C5: for a page and page size of at least one, getUsers reports the
current table size as the total, returns exactly the window of the
collected user list from (page-1)*perPage up to the smaller of the table
size and page*perPage, and a page whose window start lies at or past the
total yields an empty slice rather than an error. -/
theorem getUsers_window (s : Store) (page perPage : Nat)
    (hp : 1 ≤ page) (hpp : 1 ≤ perPage) :
    (getUsers s page perPage).2.1 = s.users.length ∧
    (getUsers s page perPage).1 =
      ((s.users.map Prod.snd).drop ((page - 1) * perPage)).take
        (min (s.users.map Prod.snd).length (page * perPage) -
          (page - 1) * perPage) ∧
    ((s.users.map Prod.snd).length ≤ (page - 1) * perPage →
      (getUsers s page perPage).1 = []) := by
  obtain ⟨n, rfl⟩ : ∃ n, page = n + 1 := ⟨page - 1, by omega⟩
  have hmul : (n + 1) * perPage = n * perPage + perPage := Nat.succ_mul n perPage
  simp only [getUsers, Nat.add_sub_cancel, hmul]
  by_cases hc : (s.users.map Prod.snd).length ≤ n * perPage
  · rw [if_pos hc]
    refine ⟨by simp, ?_, fun _ => rfl⟩
    rw [List.drop_eq_nil_of_le hc]
    simp
  · rw [if_neg hc]
    refine ⟨by simp, ?_, fun h => absurd h hc⟩
    have h2 : (if (s.users.map Prod.snd).length < n * perPage + perPage
          then (s.users.map Prod.snd).length else n * perPage + perPage)
        = min (s.users.map Prod.snd).length (n * perPage + perPage) := by
      split <;> omega
    rw [h2]

/-- Evaluation of getUsers_window on the seeded store, page 2 of size 2. -/
theorem getUsers_window_witness :
    (getUsers (startServerStore 0) 2 2).2.1 = (startServerStore 0).users.length ∧
    (getUsers (startServerStore 0) 2 2).1 =
      (((startServerStore 0).users.map Prod.snd).drop ((2 - 1) * 2)).take
        (min ((startServerStore 0).users.map Prod.snd).length (2 * 2) -
          (2 - 1) * 2) ∧
    (((startServerStore 0).users.map Prod.snd).length ≤ (2 - 1) * 2 →
      (getUsers (startServerStore 0) 2 2).1 = []) :=
  getUsers_window (startServerStore 0) 2 2 (by decide) (by decide)

/-- C10: when the active parameter is present but not a parsable boolean,
such as the literal maybe, the ParseBool error is discarded and the value
defaults to false, so the search returns only inactive users that pass the
other filters; for parsable values the active filter, the case-insensitive
substring query on name and email, and the exact country match compose with
logical conjunction. -/
theorem searchUsers_active_default (s : Store) (q country : String) :
    parseBool "maybe" = none ∧
    searchUsers s q country "maybe" =
      (s.users.map Prod.snd).filter (fun u =>
        ((strToLower q) == "" || strContains (strToLower u.name) (strToLower q)
          || strContains (strToLower u.email) (strToLower q)) &&
        (country == "" || u.country == country) && (u.active == false)) ∧
    (∀ activeStr b, parseBool activeStr = some b → activeStr ≠ "" →
      searchUsers s q country activeStr =
        (s.users.map Prod.snd).filter (fun u =>
          ((strToLower q) == "" || strContains (strToLower u.name) (strToLower q)
            || strContains (strToLower u.email) (strToLower q)) &&
          (country == "" || u.country == country) && (u.active == b))) := by
  refine ⟨rfl, ?_, ?_⟩
  · unfold searchUsers
    congr 1
  · intro a b hpb hneq
    unfold searchUsers
    congr 1
    funext u
    have h1 : (a == "") = false := beq_eq_false_iff_ne.mpr hneq
    simp only [searchMatch, h1, hpb, Option.getD_some, Bool.false_or]

/-- Evaluation of searchUsers_active_default with a parsable active filter
and a country filter on the seeded store. -/
theorem searchUsers_active_default_witness :
    searchUsers (startServerStore 0) "" "USA" "true" =
      (((startServerStore 0)).users.map Prod.snd).filter (fun u =>
        ((strToLower "") == ""
          || strContains (strToLower u.name) (strToLower "")
          || strContains (strToLower u.email) (strToLower "")) &&
        ("USA" == "" || u.country == "USA") && (u.active == true)) :=
  (searchUsers_active_default (startServerStore 0) "" "USA").2.2 "true" true
    (by decide) (by decide)

/-- C7 counterexample: on a freshly started server the first created user
does not receive identifier 1: StartServer seeds five test users through
initTestData and leaves the counter at 6, so the first create returns
identifier 6. -/
theorem firstCreate_id_is_six_not_one :
    (createUser (startServerStore 0) 1 "Alice" "alice@example.com" 28 "").map
        (fun p => p.1.id) = Except.ok 6 ∧ (6 : Nat) ≠ 1 :=
  ⟨rfl, by decide⟩

/-- C7 amended: on a freshly started server, creating Alice as the first
create operation yields identifier 6 (the startup seed leaves the counter at
6), an active record, and equal creation and update instants; a subsequent
deactivate at a later instant yields an inactive record whose update instant
is strictly later than its creation instant. -/
theorem createThenDeactivate_fresh :
    ∃ u s2 u3 s3,
      createUser (startServerStore 0) 1 "Alice" "alice@example.com" 28 "" =
        Except.ok (u, s2) ∧
      u.id = 6 ∧ u.active = true ∧ u.createdAt = u.updatedAt ∧
      deactivateUser s2 2 6 = Except.ok (u3, s3) ∧
      u3.active = false ∧ u3.createdAt < u3.updatedAt ∧
      mapLookup s3.users 6 = some u3 :=
  ⟨_, _, _, _, rfl, rfl, rfl, rfl, rfl, rfl, by decide, rfl⟩

theorem updateUser_ok_store (s : Store) (now : Nat) (id : Nat)
    (name email : String) (age : Option Int) (country : String)
    (u2 : User) (s2 : Store)
    (hok : updateUser s now id name email age country = Except.ok (u2, s2)) :
    ∃ u0, mapLookup s.users id = some u0 ∧ u2.id = u0.id ∧
      u2.createdAt = u0.createdAt ∧ u2.updatedAt = now ∧
      s2 = { s with users := mapInsert s.users id u2 } := by
  cases h0 : mapLookup s.users id with
  | none => simp [updateUser, h0] at hok
  | some u0 =>
    simp only [updateUser, h0] at hok
    refine ⟨u0, rfl, ?_⟩
    have main : ∀ X : User, X.id = u0.id → X.createdAt = u0.createdAt →
        updateUserAge s id X age country now = Except.ok (u2, s2) →
        u2.id = u0.id ∧ u2.createdAt = u0.createdAt ∧ u2.updatedAt = now ∧
        s2 = { s with users := mapInsert s.users id u2 } := by
      intro X hXi hXc hX
      obtain ⟨hc, hu, -, -, hid2, -, -, -, -, -, hs2⟩ :=
        updateUserAge_ok_inv _ _ _ _ _ _ _ _ hX
      exact ⟨hid2.trans hXi, hc.trans hXc, hu, hs2⟩
    by_cases he : email = ""
    · simp only [he, ne_eq, not_true_eq_false, if_false, ite_false] at hok
      exact main _ (by split <;> rfl) (by split <;> rfl) hok
    · have hveT : validEmail email = true := by
        cases hvb : validEmail email
        · rw [if_pos (by simp [he]), hvb] at hok
          simp at hok
        · rfl
      rw [if_pos (by simp [he] : ¬ email = ""), hveT] at hok
      simp only [Bool.true_eq_false, if_false, ite_false] at hok
      exact main _ (by split <;> rfl) (by split <;> rfl) hok

theorem setActive_ok_inv (s : Store) (now : Nat) (id : Nat) (b : Bool)
    (u2 : User) (s2 : Store)
    (hok : setActive s now id b = Except.ok (u2, s2)) :
    ∃ u0, mapLookup s.users id = some u0 ∧
      u2 = { u0 with active := b, updatedAt := now } ∧
      s2 = { s with users := mapInsert s.users id u2 } := by
  cases h0 : mapLookup s.users id with
  | none => simp [setActive, h0] at hok
  | some u0 =>
    simp only [setActive, h0, Except.ok.injEq, Prod.mk.injEq] at hok
    obtain ⟨h1, h2⟩ := hok
    refine ⟨u0, rfl, h1.symm, ?_⟩
    rw [← h2, h1]

theorem deleteUser_ok_inv (s : Store) (id : Nat) (s2 : Store)
    (hok : deleteUser s id = Except.ok s2) :
    s2 = { s with users := mapErase s.users id } := by
  cases h0 : mapLookup s.users id with
  | none => simp [deleteUser, h0] at hok
  | some u0 =>
    simp only [deleteUser, h0, Except.ok.injEq] at hok
    exact hok.symm

theorem nodup_keys_mapErase (l : List (Nat × User)) (k : Nat)
    (h : (l.map Prod.fst).Nodup) : ((mapErase l k).map Prod.fst).Nodup :=
  List.Nodup.sublist (List.Sublist.map Prod.fst (List.filter_sublist l)) h

/-- C8: the store invariant (distinct identifier keys, each record keyed by
its own identifier, creation instant at or before update instant, all
identifiers below the counter) is preserved by every handler operation when
the call instant is not earlier than any creation instant, the counter never
decreases, and a successful create assigns exactly the counter value, which
strictly exceeds every identifier already in the table, and bumps the
counter, so identifiers are never reused even after deletion. -/
theorem storeInv_preserved (s : Store) (now : Nat) (op : StoreOp)
    (hInv : StoreInv s) (hnow : ∀ p ∈ s.users, p.2.createdAt ≤ now) :
    StoreInv (applyOp s now op).1 ∧
    s.nextID ≤ (applyOp s now op).1.nextID ∧
    (∀ name email age country u s2,
      op = StoreOp.create name email age country →
      createUser s now name email age country = Except.ok (u, s2) →
      u.id = s.nextID ∧ s2.nextID = s.nextID + 1 ∧
      ∀ p ∈ s.users, p.1 < u.id) := by
  obtain ⟨hnd, hrec⟩ := hInv
  cases op with
  | create name email age country =>
    rcases h : createUser s now name email age country with e | ⟨u, s2⟩ <;>
      simp only [applyOp, h]
    · refine ⟨⟨hnd, hrec⟩, Nat.le_refl _, ?_⟩
      intro n2 e2 a2 c2 u2 s3 heq hok
      cases heq
      rw [h] at hok
      cases hok
    · obtain ⟨hu, hs⟩ := createUser_ok_inv _ _ _ _ _ _ _ _ h
      subst hs
      refine ⟨⟨nodup_keys_mapInsert _ _ _ hnd, ?_⟩, by show s.nextID ≤ s.nextID + 1; omega, ?_⟩
      · intro p hp
        rcases mem_mapInsert _ _ _ _ hp with hpe | hpm
        · subst hpe
          refine ⟨by rw [hu], by rw [hu], ?_⟩
          show s.nextID < s.nextID + 1
          omega
        · obtain ⟨h1, h2, h3⟩ := hrec p hpm
          refine ⟨h1, h2, ?_⟩
          show p.1 < s.nextID + 1
          omega
      · intro n2 e2 a2 c2 u2 s3 heq hok
        cases heq
        rw [h] at hok
        obtain ⟨hq1, hq2⟩ : u = u2 ∧ _ = s3 := by
          simpa only [Except.ok.injEq, Prod.mk.injEq] using hok
        subst hq1
        refine ⟨by rw [hu], by rw [← hq2], ?_⟩
        intro p hp
        have h3 := (hrec p hp).2.2
        rw [hu]
        exact h3
  | update id name email age country =>
    rcases h : updateUser s now id name email age country with e | ⟨u2, s2⟩ <;>
      simp only [applyOp, h]
    · exact ⟨⟨hnd, hrec⟩, Nat.le_refl _, fun _ _ _ _ _ _ heq _ => by cases heq⟩
    · obtain ⟨u0, h0, hid2, hc, hu, hs⟩ := updateUser_ok_store _ _ _ _ _ _ _ _ _ h
      subst hs
      have hmem : (id, u0) ∈ s.users := mapLookup_some_mem _ _ _ h0
      refine ⟨⟨nodup_keys_mapInsert _ _ _ hnd, ?_⟩, Nat.le_refl _,
        fun _ _ _ _ _ _ heq _ => by cases heq⟩
      intro p hp
      rcases mem_mapInsert _ _ _ _ hp with hpe | hpm
      · subst hpe
        refine ⟨?_, ?_, ?_⟩
        · show id = u2.id
          rw [hid2, ← (hrec _ hmem).1]
        · show u2.createdAt ≤ u2.updatedAt
          rw [hc, hu]
          exact hnow _ hmem
        · show id < s.nextID
          exact (hrec _ hmem).2.2
      · exact hrec p hpm
  | setActiveOp id b =>
    rcases h : setActive s now id b with e | ⟨u2, s2⟩ <;>
      simp only [applyOp, h]
    · exact ⟨⟨hnd, hrec⟩, Nat.le_refl _, fun _ _ _ _ _ _ heq _ => by cases heq⟩
    · obtain ⟨u0, h0, hu2, hs⟩ := setActive_ok_inv _ _ _ _ _ _ h
      subst hs
      have hmem : (id, u0) ∈ s.users := mapLookup_some_mem _ _ _ h0
      refine ⟨⟨nodup_keys_mapInsert _ _ _ hnd, ?_⟩, Nat.le_refl _,
        fun _ _ _ _ _ _ heq _ => by cases heq⟩
      intro p hp
      rcases mem_mapInsert _ _ _ _ hp with hpe | hpm
      · subst hpe
        refine ⟨?_, ?_, ?_⟩
        · show id = u2.id
          rw [hu2, ← (hrec _ hmem).1]
        · show u2.createdAt ≤ u2.updatedAt
          rw [hu2]
          exact hnow _ hmem
        · show id < s.nextID
          exact (hrec _ hmem).2.2
      · exact hrec p hpm
  | delete id =>
    rcases h : deleteUser s id with e | s2 <;>
      simp only [applyOp, h]
    · exact ⟨⟨hnd, hrec⟩, Nat.le_refl _, fun _ _ _ _ _ _ heq _ => by cases heq⟩
    · have hs := deleteUser_ok_inv _ _ _ h
      subst hs
      refine ⟨⟨nodup_keys_mapErase _ _ hnd, ?_⟩, Nat.le_refl _,
        fun _ _ _ _ _ _ heq _ => by cases heq⟩
      intro p hp
      exact hrec p (List.mem_of_mem_filter hp)

/-- Evaluation of storeInv_preserved: the seeded store satisfies the
invariant and a create preserves it. -/
theorem storeInv_preserved_witness :
    StoreInv (applyOp (startServerStore 0) 1
      (StoreOp.create "Alice" "alice@example.com" 28 "")).1 ∧
    (startServerStore 0).nextID ≤ (applyOp (startServerStore 0) 1
      (StoreOp.create "Alice" "alice@example.com" 28 "")).1.nextID ∧
    (∀ name email age country u s2,
      StoreOp.create "Alice" "alice@example.com" 28 "" =
        StoreOp.create name email age country →
      createUser (startServerStore 0) 1 name email age country =
        Except.ok (u, s2) →
      u.id = (startServerStore 0).nextID ∧
      s2.nextID = (startServerStore 0).nextID + 1 ∧
      ∀ p ∈ (startServerStore 0).users, p.1 < u.id) :=
  storeInv_preserved (startServerStore 0) 1
    (StoreOp.create "Alice" "alice@example.com" 28 "")
    (by unfold StoreInv; decide) (by decide)

/-!
Hub lemmas.
-/

theorem deliver_id (m : Message) (c : Client) : (deliver m c).id = c.id := by
  by_cases hr : c.send.length < c.sendCap <;> simp [deliver, trySend, hr]

theorem deliver_full_closed (m : Message) (c : Client)
    (hfull : c.sendCap ≤ c.send.length) : (deliver m c).sendClosed = true := by
  simp [deliver, trySend, Nat.not_lt.mpr hfull]

theorem deliver_room (m : Message) (c : Client)
    (hroom : c.send.length < c.sendCap) :
    deliver m c = { c with send := c.send ++ [m] } := by
  simp [deliver, trySend, hroom]

theorem filterMap_id_of_mem {α : Type} (l : List α) (f : α → Option α)
    (hf : ∀ y ∈ l, f y = some y) : l.filterMap f = l := by
  induction l with
  | nil => rfl
  | cons a rest ih =>
    rw [List.filterMap_cons, hf a (List.mem_cons_self a rest),
      ih (fun y hy => hf y (List.mem_cons_of_mem a hy))]

/-- C2: when a broadcast reaches a registered client whose queue is at
capacity, that client is closed and removed from the registered set, no
client with its identifier remains registered after the pass, while every
registered client with room receives the message appended to its queue; the
pass is a total function of the hub state, so the broadcaster never blocks. -/
theorem broadcast_drops_full_clients (h : Hub) (m : Message) (c : Client)
    (hopen : ∀ x ∈ h.clients, x.sendClosed = false)
    (hids : (h.clients.map Client.id).Nodup)
    (hc : c ∈ h.clients) :
    (c.sendCap ≤ c.send.length →
      (deliver m c).sendClosed = true ∧
      ∀ x ∈ (h.broadcastStep m).clients, x.id ≠ c.id) ∧
    (c.send.length < c.sendCap →
      { c with send := c.send ++ [m] } ∈ (h.broadcastStep m).clients) := by
  constructor
  · intro hfull
    refine ⟨deliver_full_closed m c hfull, ?_⟩
    intro x hx hxid
    simp only [Hub.broadcastStep, Hub.broadcastResults, List.mem_filter,
      List.mem_map] at hx
    obtain ⟨⟨y, hy, hxy⟩, hxopen⟩ := hx
    have hyc : y = c := by
      refine List.inj_on_of_nodup_map hids hy hc ?_
      rw [← deliver_id m y, hxy, hxid]
    subst hyc
    rw [← hxy] at hxopen
    rw [deliver_full_closed m y hfull] at hxopen
    simp at hxopen
  · intro hroom
    simp only [Hub.broadcastStep, Hub.broadcastResults, List.mem_filter,
      List.mem_map]
    refine ⟨⟨c, hc, ?_⟩, ?_⟩
    · exact deliver_room m c hroom
    · simp [hopen c hc]

/-- Evaluation of broadcast_drops_full_clients on a hub holding one
saturated and one responsive client. -/
theorem broadcast_drops_full_clients_witness :
    (fullClient.sendCap ≤ fullClient.send.length →
      (deliver sampleMessage fullClient).sendClosed = true ∧
      ∀ x ∈ (sampleHub.broadcastStep sampleMessage).clients,
        x.id ≠ fullClient.id) ∧
    (fullClient.send.length < fullClient.sendCap →
      { fullClient with send := fullClient.send ++ [sampleMessage] } ∈
        (sampleHub.broadcastStep sampleMessage).clients) :=
  broadcast_drops_full_clients sampleHub sampleMessage fullClient
    (by decide) (by decide) (by decide)

/-- C3: after the central loop services a registration and then a broadcast,
the newly registered client holds exactly the welcome message followed by
the broadcast message in its queue, in that order: the welcome is sent
synchronously inside the registration event, so no broadcast serviced after
registration can precede it. The client arrives fresh (empty open queue) and
its capacity, 256 in the source, is at least two. -/
theorem register_then_broadcast_queue (h : Hub) (c : Client) (t : Nat)
    (x : Message)
    (hfresh : ∀ y ∈ h.clients, y.id ≠ c.id)
    (hempty : c.send = [])
    (hopen : c.sendClosed = false)
    (hcap : 2 ≤ c.sendCap) :
    ∃ c2 ∈ ((h.Run (HubEvent.register c t)).Run (HubEvent.broadcast x)).clients,
      c2.id = c.id ∧ c2.send = [welcomeMessage c.id t, x] := by
  have hw : trySend c (welcomeMessage c.id t) =
      some { c with send := [welcomeMessage c.id t] } := by
    have h0 : c.send.length < c.sendCap := by
      rw [hempty]
      simp
      omega
    simp [trySend, h0, hempty]
    omega
  have h1eq : (h.Run (HubEvent.register c t)).clients
      = h.clients ++ [{ c with send := [welcomeMessage c.id t] }] := by
    show (Hub.SendToClient ⟨h.clients ++ [c]⟩ c.id (welcomeMessage c.id t)).clients = _
    unfold Hub.SendToClient
    simp only [List.filterMap_append]
    congr 1
    · exact filterMap_id_of_mem _ _ (fun y hy => by rw [if_neg (hfresh y hy)])
    · simp only [List.filterMap_cons, List.filterMap_nil]
      rw [if_pos trivial, hw]
  refine ⟨{ c with send := [welcomeMessage c.id t, x] }, ?_, rfl, rfl⟩
  show _ ∈ (Hub.broadcastStep _ x).clients
  simp only [Hub.broadcastStep, Hub.broadcastResults]
  rw [h1eq, List.map_append, List.filter_append]
  refine List.mem_append_right _ ?_
  have hdel : deliver x { c with send := [welcomeMessage c.id t] } =
      { c with send := [welcomeMessage c.id t, x] } := by
    have hlen : ([welcomeMessage c.id t] : List Message).length < c.sendCap := by
      simp
      omega
    simpa using deliver_room x { c with send := [welcomeMessage c.id t] } hlen
  simp only [List.map_cons, List.map_nil, hdel]
  simp [hopen]

/-- Evaluation of register_then_broadcast_queue: registering a fresh client
into an empty hub and broadcasting one message. -/
theorem register_then_broadcast_queue_witness :
    ∃ c2 ∈ (((⟨[]⟩ : Hub).Run
        (HubEvent.register roomyClient 7)).Run
          (HubEvent.broadcast sampleMessage)).clients,
      c2.id = roomyClient.id ∧
      c2.send = [welcomeMessage roomyClient.id 7, sampleMessage] :=
  register_then_broadcast_queue ⟨[]⟩ roomyClient 7 sampleMessage
    (by decide) (by decide) (by decide) (by decide)

/-- C6: when Shutdown completes, every client registered at that moment has
received the shutdown message at the tail of its queue, has its queue and
transport closed, and the registered set is left empty. In the model the
blocking push completes exactly when every registered queue has room, which
the hypothesis states by requiring Shutdown to return. -/
theorem shutdown_spec (h : Hub) (t : Nat) (h2 : Hub) (cs : List Client)
    (hrun : h.Shutdown t = some (h2, cs)) :
    h2.clients = [] ∧ cs.length = h.clients.length ∧
    ∀ c ∈ h.clients, ∃ c2 ∈ cs, c2.id = c.id ∧
      c2.send = c.send ++ [shutdownMessage t] ∧
      c2.sendClosed = true ∧ c2.connClosed = true := by
  unfold Hub.Shutdown at hrun
  by_cases hall : h.clients.all (fun c => c.send.length < c.sendCap)
  · rw [if_pos hall] at hrun
    obtain ⟨hh, hcs⟩ : ({ clients := [] } : Hub) = h2 ∧ _ = cs := by
      simpa only [Option.some.injEq, Prod.mk.injEq] using hrun
    subst hh
    subst hcs
    refine ⟨rfl, by rw [List.length_map], ?_⟩
    intro c hcmem
    exact ⟨_, List.mem_map_of_mem _ hcmem, rfl, rfl, rfl, rfl⟩
  · rw [if_neg hall] at hrun
    cases hrun

/-- Evaluation of shutdown_spec on a hub with one client with queue room. -/
theorem shutdown_spec_witness :
    (⟨[]⟩ : Hub).clients = [] ∧
    ([⟨"roomy", [shutdownMessage 9], 2, true, true⟩] : List Client).length =
      roomyHub.clients.length ∧
    ∀ c ∈ roomyHub.clients,
      ∃ c2 ∈ ([⟨"roomy", [shutdownMessage 9], 2, true, true⟩] : List Client),
        c2.id = c.id ∧ c2.send = c.send ++ [shutdownMessage 9] ∧
        c2.sendClosed = true ∧ c2.connClosed = true :=
  shutdown_spec roomyHub 9 ⟨[]⟩
    [⟨"roomy", [shutdownMessage 9], 2, true, true⟩] (by decide)
